import Mathlib

/-!
# Aoi VM — shallow embedding and verification

A shallow embedding of the Aoi virtual machine and its binary codec,
translated from the Rust sources:

* `src/runtime/types` — the tagged value model (`AoType`);
* `src/serialization.rs` — the byte codec (which works over the
  `AoOpCode` enum and the `AoArg` union of `src/runtime/opcode.rs`);
* `src/runtime/vm/memory.rs` — the four-level sparse memory;
* `src/runtime/opcode/args.rs`, `src/runtime/opcode/opcodes.rs`,
  `src/runtime/vm/mod.rs` — the VM state, operand evaluation,
  instruction execution, and the fetch/execute loop.

Machine integers are modelled as `Nat` bit patterns (`< 2^32`) with
explicit two's-complement reinterpretation where the source casts between
`i32`/`u32`.  `f32` payloads are modelled as their IEEE-754 bit patterns;
IEEE equality and ordering (which is what Rust's `==`/`<` on `f32`
compute) are defined on the bit patterns.  Rust `String`s are modelled as
their UTF-8 byte lists.  Code paths that panic in Rust (out-of-bounds
indexing, `unwrap` on `None`) are modelled with an explicit panic result.
-/

/-- 2^32, the modulus of the machine words used throughout. -/
def w32 : Nat := 4294967296

/-- 2^31. -/
def w31 : Nat := 2147483648

/-- Reinterpret a `u32` bit pattern as the mathematical value of the
`i32` with the same bits (Rust's `as i32` on a `u32`). -/
def toInt32 (n : Nat) : Int :=
  if n < w31 then (n : Int) else (n : Int) - (w32 : Int)

/-- Reinterpret an `i32` value as its `u32` bit pattern
(Rust's `as u32` on an `i32`), i.e. reduce mod 2^32. -/
def ofInt32 (i : Int) : Nat := (i % (w32 : Int)).toNat

-- ## IEEE-754 single-precision bit-pattern predicates
-- Rust's `==` / `<` / `<=` on `f32` compare by IEEE semantics: NaN is
-- unordered (all comparisons false), and `-0.0 == +0.0`.  On the bit
-- patterns this is captured by the standard order-embedding key below.

/-- The exponent field of an f32 bit pattern. -/
def fExp (bits : Nat) : Nat := bits / 8388608 % 256

/-- The mantissa field of an f32 bit pattern. -/
def fMan (bits : Nat) : Nat := bits % 8388608

/-- NaN: exponent all ones, nonzero mantissa. -/
def fIsNaN (bits : Nat) : Bool := fExp bits == 255 && fMan bits != 0

/-- Order key of a non-NaN f32 bit pattern: nonnegative patterns compare
as themselves, negative ones reversed; `+0.0` and `-0.0` share key 0. -/
def fKey (bits : Nat) : Int :=
  if bits < w31 then (bits : Int) else (w31 : Int) - (bits : Int)

/-- IEEE equality of two f32 bit patterns (Rust `==` on `f32`). -/
def fEq (a b : Nat) : Bool := !fIsNaN a && !fIsNaN b && fKey a == fKey b

/-- IEEE strict order of two f32 bit patterns (Rust `<` on `f32`). -/
def fLt (a b : Nat) : Bool := !fIsNaN a && !fIsNaN b && decide (fKey a < fKey b)

/-- IEEE non-strict order of two f32 bit patterns (Rust `<=` on `f32`). -/
def fLe (a b : Nat) : Bool := !fIsNaN a && !fIsNaN b && decide (fKey a ≤ fKey b)

-- ## UTF-8 validity
-- `String::from_utf8` succeeds exactly on valid UTF-8 byte sequences.
-- The standard acceptor: 1-byte `00..7F`; 2-byte `C2..DF` + continuation;
-- 3-byte `E0 A0..BF`, `E1..EC 80..BF`, `ED 80..9F`, `EE..EF 80..BF`
-- + continuation; 4-byte `F0 90..BF`, `F1..F3 80..BF`, `F4 80..8F`
-- + two continuations; continuation bytes are `80..BF`.

/-- A UTF-8 continuation byte. -/
def isCont (b : Nat) : Bool := 128 ≤ b && b ≤ 191

/-- The standard UTF-8 acceptor over a byte list. -/
def validUtf8 : List Nat → Bool
  | [] => true
  | b :: rest =>
    if b ≤ 127 then validUtf8 rest
    else if 194 ≤ b && b ≤ 223 then
      match rest with
      | c1 :: rest' => isCont c1 && validUtf8 rest'
      | [] => false
    else if 224 ≤ b && b ≤ 239 then
      match rest with
      | c1 :: c2 :: rest' =>
        (if b == 224 then 160 ≤ c1 && c1 ≤ 191
         else if b == 237 then 128 ≤ c1 && c1 ≤ 159
         else isCont c1) && isCont c2 && validUtf8 rest'
      | _ => false
    else if 240 ≤ b && b ≤ 244 then
      match rest with
      | c1 :: c2 :: c3 :: rest' =>
        (if b == 240 then 144 ≤ c1 && c1 ≤ 191
         else if b == 244 then 128 ≤ c1 && c1 ≤ 143
         else isCont c1) && isCont c2 && isCont c3 && validUtf8 rest'
      | _ => false
    else false

-- ## The value model (`AoType`, src/runtime/types/mod.rs)

/-- The data type of the Aoi VM (Rust `AoType`).  Numeric payloads are
bit patterns: `AoInt` holds the two's-complement bits of the `i32`,
`AoFloat` the IEEE bits of the `f32`, `AoPtr` the `u32`; `AoString`
holds the UTF-8 bytes of the Rust `String`. -/
inductive AoType where
  | AoBool (b : Bool)
  | AoInt (i : Nat)
  | AoFloat (f : Nat)
  | AoPtr (p : Nat)
  | AoString (s : List Nat)
deriving DecidableEq, Repr

/-- `AoType::default()` is `AoInt(0)`. -/
def AoType.default : AoType := .AoInt 0

/-- A tag discriminant, to state "same tag" / "mixed tag" claims. -/
def AoType.tag : AoType → Nat
  | .AoBool _ => 0
  | .AoInt _ => 1
  | .AoFloat _ => 2
  | .AoPtr _ => 3
  | .AoString _ => 4

/-- Rust's derived `PartialEq` on `AoType`: structural except that
`AoFloat` payloads compare by IEEE `f32` equality (`NaN != NaN`). -/
def rustEqType : AoType → AoType → Bool
  | .AoBool a, .AoBool b => a == b
  | .AoInt a, .AoInt b => a == b
  | .AoFloat a, .AoFloat b => fEq a b
  | .AoPtr a, .AoPtr b => a == b
  | .AoString a, .AoString b => a == b
  | _, _ => false

/-- A Rust-representable `AoType`: word payloads fit in 32 bits and
string payloads are bytes forming valid UTF-8. -/
def wfType : AoType → Prop
  | .AoBool _ => True
  | .AoInt i => i < w32
  | .AoFloat f => f < w32
  | .AoPtr p => p < w32
  | .AoString s => (∀ b ∈ s, b < 256) ∧ validUtf8 s = true ∧ s.length < w32

instance : DecidablePred wfType := by
  intro t; cases t <;> simp [wfType] <;> infer_instance

-- ## The binary codec (src/serialization.rs)
-- The serializer works over the `AoOpCode` enum and the `AoArg` union of
-- `src/runtime/opcode.rs` (the revision with `GVS` and no `MP`/`CB`/`MEM`).

namespace Asm

/-- The operand union of `src/runtime/opcode.rs` (the revision the
serializer is written against). -/
inductive AoArg where
  | DSB
  | DST
  | PC
  | DP
  | CA
  | DS
  | GVS
  | Imm (v : AoType)
deriving DecidableEq, Repr

/-- The instruction enum of `src/runtime/opcode.rs`. -/
inductive AoOpCode where
  | NOP
  | CALL (addr : Nat)
  | RET
  | JMP (addr : Nat)
  | JT (addr : Nat)
  | JF (addr : Nat)
  | MOV (dst src : AoArg)
  | INT (id : Nat)
  | PUSH (src : AoArg)
  | POP (save : Bool)
  | ADD (src : AoArg)
  | SUB (src : AoArg)
  | MUL (src : AoArg)
  | DIV (src : AoArg)
  | REM (src : AoArg)
  | INC
  | DEC
  | AND (src : AoArg)
  | OR (src : AoArg)
  | XOR (src : AoArg)
  | NOT
  | BAND (src : AoArg)
  | BOR (src : AoArg)
  | BXOR (src : AoArg)
  | BNOT
  | SHL (src : AoArg)
  | SHR (src : AoArg)
  | EQU (src : AoArg)
  | NEQ (src : AoArg)
  | GT (src : AoArg)
  | LT (src : AoArg)
  | GE (src : AoArg)
  | LE (src : AoArg)
  | CSI
  | CSF
  | CSP
  | CSS
  | ISB
  | ISI
  | ISF
  | ISP
  | ISS
  | ARG (offset : Nat)
  | CNF (argc : Nat)
deriving DecidableEq, Repr

/-- `to_le_bytes` of a 32-bit word: four little-endian bytes.  Extraction
of the four low bytes discards any bits at or above 2^32, exactly as the
`as u32` / `to_le_bytes` pipeline does. -/
def le4 (n : Nat) : List Nat :=
  [n % 256, n / 256 % 256, n / 65536 % 256, n / 16777216 % 256]

/-- `AoAsmSerializer::serialize_type`: tag byte plus payload. -/
def serialize_type : AoType → List Nat
  | .AoBool b => [0x01, if b then 0x01 else 0x00]
  | .AoInt i => 0x02 :: le4 i
  | .AoFloat f => 0x03 :: le4 f
  | .AoPtr p => 0x04 :: le4 p
  | .AoString s => 0x05 :: (le4 s.length ++ s)

/-- `AoAsmSerializer::serialize_arg`: one tag byte; `Imm` is followed by
a typed-value record. -/
def serialize_arg : AoArg → List Nat
  | .DSB => [0x01]
  | .DST => [0x02]
  | .PC => [0x03]
  | .DP => [0x04]
  | .CA => [0x05]
  | .DS => [0x06]
  | .GVS => [0x07]
  | .Imm v => 0x08 :: serialize_type v

/-- `AoAsmSerializer::serialize_opcode`: opcode id byte plus operands. -/
def serialize_opcode : AoOpCode → List Nat
  | .NOP => [0x00]
  | .CALL addr => 0x10 :: le4 addr
  | .RET => [0x11]
  | .JMP addr => 0x12 :: le4 addr
  | .JT addr => 0x13 :: le4 addr
  | .JF addr => 0x14 :: le4 addr
  | .MOV dst src => 0x20 :: (serialize_arg dst ++ serialize_arg src)
  | .INT id => [0x21, id % 256]
  | .PUSH src => 0x30 :: serialize_arg src
  | .POP save => [0x31, if save then 0x01 else 0x00]
  | .ADD src => 0x40 :: serialize_arg src
  | .SUB src => 0x41 :: serialize_arg src
  | .MUL src => 0x42 :: serialize_arg src
  | .DIV src => 0x43 :: serialize_arg src
  | .REM src => 0x44 :: serialize_arg src
  | .INC => [0x45]
  | .DEC => [0x46]
  | .AND src => 0x50 :: serialize_arg src
  | .OR src => 0x51 :: serialize_arg src
  | .XOR src => 0x52 :: serialize_arg src
  | .NOT => [0x53]
  | .BAND src => 0x60 :: serialize_arg src
  | .BOR src => 0x61 :: serialize_arg src
  | .BXOR src => 0x62 :: serialize_arg src
  | .BNOT => [0x63]
  | .SHL src => 0x70 :: serialize_arg src
  | .SHR src => 0x71 :: serialize_arg src
  | .EQU src => 0x80 :: serialize_arg src
  | .NEQ src => 0x81 :: serialize_arg src
  | .GT src => 0x82 :: serialize_arg src
  | .LT src => 0x83 :: serialize_arg src
  | .GE src => 0x84 :: serialize_arg src
  | .LE src => 0x85 :: serialize_arg src
  | .CSI => [0x90]
  | .CSF => [0x91]
  | .CSP => [0x92]
  | .CSS => [0x93]
  | .ISB => [0xA0]
  | .ISI => [0xA1]
  | .ISF => [0xA2]
  | .ISP => [0xA3]
  | .ISS => [0xA4]
  | .ARG offset => 0xB0 :: le4 offset
  | .CNF argc => 0xB1 :: le4 argc

/-- `AoAsmSerializer::serialize`: flat concatenation of the records. -/
def serialize (asm : List AoOpCode) : List Nat :=
  (asm.map serialize_opcode).flatten

end Asm

namespace Asm

/-- Result of a decoding step: success, clean failure (`None` in Rust),
or a panic (out-of-bounds slice/index or `unwrap` on `None`). -/
inductive PRes (α : Type) where
  | ok (a : α)
  | fail
  | panic
deriving DecidableEq, Repr

/-- `value[offset]`: a single byte; out of bounds panics. -/
def readByte (v : List Nat) (off : Nat) : PRes Nat :=
  match v.get? off with
  | some b => .ok b
  | none => .panic

/-- `u32::from_le_bytes(value[off..off+4].try_into().unwrap())`:
an out-of-range slice panics. -/
def read4 (v : List Nat) (off : Nat) : PRes Nat :=
  match v.get? off, v.get? (off + 1), v.get? (off + 2), v.get? (off + 3) with
  | some b0, some b1, some b2, some b3 =>
      .ok (b0 + 256 * b1 + 65536 * b2 + 16777216 * b3)
  | _, _, _, _ => .panic

/-- `value[off..off+n].to_vec()`: an out-of-range slice panics. -/
def readSlice (v : List Nat) (off n : Nat) : PRes (List Nat) :=
  if off + n ≤ v.length then .ok ((v.drop off).take n) else .panic

/-- The body of `AoAsmSerializer::deserialize_type` after the tag byte
has been read: `tag` is `value[off - 1]`, `off` the advanced offset. -/
def decodeTypeAux (tag : Nat) (v : List Nat) (off : Nat) :
    PRes (AoType × Nat) :=
  if tag = 0x01 then
    match readByte v off with
    | .ok b => .ok (.AoBool (b ≠ 0), off + 1)
    | _ => .panic
  else if tag = 0x02 then
    match read4 v off with
    | .ok n => .ok (.AoInt n, off + 4)
    | _ => .panic
  else if tag = 0x03 then
    match read4 v off with
    | .ok n => .ok (.AoFloat n, off + 4)
    | _ => .panic
  else if tag = 0x04 then
    match read4 v off with
    | .ok n => .ok (.AoPtr n, off + 4)
    | _ => .panic
  else if tag = 0x05 then
    match read4 v off with
    | .ok strLen =>
      match readSlice v (off + 4) strLen with
      | .ok bytes =>
        -- `String::from_utf8(...).unwrap()` panics on invalid UTF-8
        if validUtf8 bytes then .ok (.AoString bytes, off + 4 + strLen)
        else .panic
      | _ => .panic
    | _ => .panic
  else .fail

/-- `AoAsmSerializer::deserialize_type`: reads `value[offset]` (panic if
out of bounds) and dispatches on the typed-value tag. -/
def decodeType (v : List Nat) (off : Nat) : PRes (AoType × Nat) :=
  match readByte v off with
  | .ok tag => decodeTypeAux tag v (off + 1)
  | _ => .panic

/-- Dispatch of `AoAsmSerializer::deserialize_arg` on the tag byte.
The `Imm` case calls `deserialize_type(..).unwrap()`, so a clean `None`
from the typed-value decoder becomes a panic. -/
def decodeArgAux (tag : Nat) (v : List Nat) (off : Nat) :
    PRes (AoArg × Nat) :=
  if tag = 0x01 then .ok (.DSB, off)
  else if tag = 0x02 then .ok (.DST, off)
  else if tag = 0x03 then .ok (.PC, off)
  else if tag = 0x04 then .ok (.DP, off)
  else if tag = 0x05 then .ok (.CA, off)
  else if tag = 0x06 then .ok (.DS, off)
  else if tag = 0x07 then .ok (.GVS, off)
  else if tag = 0x08 then
    match decodeType v off with
    | .ok (ty, off') => .ok (.Imm ty, off')
    | _ => .panic
  else .fail

/-- `AoAsmSerializer::deserialize_arg`. -/
def decodeArg (v : List Nat) (off : Nat) : PRes (AoArg × Nat) :=
  match readByte v off with
  | .ok tag => decodeArgAux tag v (off + 1)
  | _ => .panic

/-- One operand `Arg`: `deserialize_arg(..).unwrap()`, so a clean `None`
(unknown tag) becomes a panic. -/
def decodeArg1 (v : List Nat) (off : Nat) (mk : AoArg → AoOpCode) :
    PRes (AoOpCode × Nat) :=
  match decodeArg v off with
  | .ok (a, off') => .ok (mk a, off')
  | _ => .panic

/-- One `u32` operand. -/
def decodeU32 (v : List Nat) (off : Nat) (mk : Nat → AoOpCode) :
    PRes (AoOpCode × Nat) :=
  match read4 v off with
  | .ok n => .ok (mk n, off + 4)
  | _ => .panic

/-- Dispatch of `AoAsmSerializer::deserialize_opcode` on the id byte. -/
def decodeOpcodeAux (id : Nat) (v : List Nat) (off : Nat) :
    PRes (AoOpCode × Nat) :=
  if id = 0x00 then .ok (.NOP, off)
  else if id = 0x10 then decodeU32 v off .CALL
  else if id = 0x11 then .ok (.RET, off)
  else if id = 0x12 then decodeU32 v off .JMP
  else if id = 0x13 then decodeU32 v off .JT
  else if id = 0x14 then decodeU32 v off .JF
  else if id = 0x20 then
    match decodeArg v off with
    | .ok (dst, off') =>
      match decodeArg v off' with
      | .ok (src, off'') => .ok (.MOV dst src, off'')
      | _ => .panic
    | _ => .panic
  else if id = 0x21 then
    match readByte v off with
    | .ok b => .ok (.INT b, off + 1)
    | _ => .panic
  else if id = 0x30 then decodeArg1 v off .PUSH
  else if id = 0x31 then
    match readByte v off with
    | .ok b => .ok (.POP (b ≠ 0), off + 1)
    | _ => .panic
  else if id = 0x40 then decodeArg1 v off .ADD
  else if id = 0x41 then decodeArg1 v off .SUB
  else if id = 0x42 then decodeArg1 v off .MUL
  else if id = 0x43 then decodeArg1 v off .DIV
  else if id = 0x44 then decodeArg1 v off .REM
  else if id = 0x45 then .ok (.INC, off)
  else if id = 0x46 then .ok (.DEC, off)
  else if id = 0x50 then decodeArg1 v off .AND
  else if id = 0x51 then decodeArg1 v off .OR
  else if id = 0x52 then decodeArg1 v off .XOR
  else if id = 0x53 then .ok (.NOT, off)
  else if id = 0x60 then decodeArg1 v off .BAND
  else if id = 0x61 then decodeArg1 v off .BOR
  else if id = 0x62 then decodeArg1 v off .BXOR
  else if id = 0x63 then .ok (.BNOT, off)
  else if id = 0x70 then decodeArg1 v off .SHL
  else if id = 0x71 then decodeArg1 v off .SHR
  else if id = 0x80 then decodeArg1 v off .EQU
  else if id = 0x81 then decodeArg1 v off .NEQ
  else if id = 0x82 then decodeArg1 v off .GT
  else if id = 0x83 then decodeArg1 v off .LT
  else if id = 0x84 then decodeArg1 v off .GE
  else if id = 0x85 then decodeArg1 v off .LE
  else if id = 0x90 then .ok (.CSI, off)
  else if id = 0x91 then .ok (.CSF, off)
  else if id = 0x92 then .ok (.CSP, off)
  else if id = 0x93 then .ok (.CSS, off)
  else if id = 0xA0 then .ok (.ISB, off)
  else if id = 0xA1 then .ok (.ISI, off)
  else if id = 0xA2 then .ok (.ISF, off)
  else if id = 0xA3 then .ok (.ISP, off)
  else if id = 0xA4 then .ok (.ISS, off)
  else if id = 0xB0 then decodeU32 v off .ARG
  else if id = 0xB1 then decodeU32 v off .CNF
  else .fail

/-- `AoAsmSerializer::deserialize_opcode`. -/
def decodeOpcode (v : List Nat) (off : Nat) : PRes (AoOpCode × Nat) :=
  match readByte v off with
  | .ok id => decodeOpcodeAux id v (off + 1)
  | _ => .panic

/-- The `while offset < value.len()` loop of
`AoAsmSerializer::deserialize`.  Every iteration of the Rust loop
advances `offset` by at least one byte, so `value.len() + 1` rounds of
fuel are always enough and the `fuel = 0` branch is unreachable from
`deserialize`. -/
def deserializeLoop : Nat → List Nat → Nat → PRes (List AoOpCode)
  | 0, _, _ => .panic
  | fuel + 1, v, off =>
    if off < v.length then
      match decodeOpcode v off with
      | .ok (op, off') =>
        match deserializeLoop fuel v off' with
        | .ok rest => .ok (op :: rest)
        | .fail => .fail
        | .panic => .panic
      | .fail => .fail
      | .panic => .panic
    else .ok []

/-- `AoAsmSerializer::deserialize`. -/
def deserialize (v : List Nat) : PRes (List AoOpCode) :=
  deserializeLoop (v.length + 1) v 0

end Asm

-- ## Sparse memory (src/runtime/vm/memory.rs)
-- A four-level radix tree on the byte slices of a `u32` address.
-- `get` on a tile slot that has been pushed as a `None` placeholder but
-- never allocated runs `.as_ref().unwrap()` in the source and panics;
-- that path is modelled by returning `none`.

namespace Rt

/-- The innermost 256-cell tile (`Chip`): a dense vector grown on demand. -/
structure Chip where
  data : List AoType
deriving Repr

def Chip.new : Chip := ⟨[]⟩

/-- `Chip::get`: default for indices beyond the grown length. -/
def Chip.get (c : Chip) (index : Nat) : AoType :=
  if index ≥ c.data.length then AoType.default
  else c.data.getD index AoType.default

/-- `Chip::set`: grow with defaults up to `index`, then write. -/
def Chip.set (c : Chip) (index : Nat) (value : AoType) : Chip :=
  let grown := c.data ++ List.replicate (index + 1 - c.data.length) AoType.default
  ⟨grown.set index value⟩

/-- `Page`: up to 256 optional `Chip`s. -/
structure Page where
  chips : List (Option Chip)
deriving Repr

def Page.new : Page := ⟨[]⟩

/-- `Page::get`: `index` is the low 16 bits of the address.  A slot that
exists but holds `None` is `.unwrap()`ed in the source: panic. -/
def Page.get (p : Page) (index : Nat) : Option AoType :=
  let chipIndex := index / 256
  if chipIndex ≥ p.chips.length then some AoType.default
  else
    match p.chips.getD chipIndex none with
    | none => none
    | some chip => some (chip.get (index % 256))

/-- `Page::set`: pad with `None` slots, allocate the chip if absent. -/
def Page.set (p : Page) (index : Nat) (value : AoType) : Page :=
  let chipIndex := index / 256
  let grown := p.chips ++ List.replicate (chipIndex + 1 - p.chips.length) none
  let chip := (grown.getD chipIndex none).getD Chip.new
  ⟨grown.set chipIndex (some (chip.set (index % 256) value))⟩

/-- `Section`: up to 256 optional `Page`s. -/
structure Section where
  pages : List (Option Page)
deriving Repr

def Section.new : Section := ⟨[]⟩

/-- `Section::get`. -/
def Section.get (s : Section) (index : Nat) : Option AoType :=
  let pageIndex := index / 65536 % 256
  if pageIndex ≥ s.pages.length then some AoType.default
  else
    match s.pages.getD pageIndex none with
    | none => none
    | some page => page.get (index % 65536)

/-- `Section::set`. -/
def Section.set (s : Section) (index : Nat) (value : AoType) : Section :=
  let pageIndex := index / 65536 % 256
  let grown := s.pages ++ List.replicate (pageIndex + 1 - s.pages.length) none
  let page := (grown.getD pageIndex none).getD Page.new
  ⟨grown.set pageIndex (some (page.set (index % 65536) value))⟩

/-- `Memory`: up to 256 optional `Section`s. -/
structure Memory where
  sections : List (Option Section)
deriving Repr

def Memory.new : Memory := ⟨[]⟩

/-- `Memory::get`. -/
def Memory.get (m : Memory) (index : Nat) : Option AoType :=
  let sectionIndex := index / 16777216 % 256
  if sectionIndex ≥ m.sections.length then some AoType.default
  else
    match m.sections.getD sectionIndex none with
    | none => none
    | some sect => sect.get index

/-- `Memory::set` (the section receives `index & 0xFFFFFF`). -/
def Memory.set (m : Memory) (index : Nat) (value : AoType) : Memory :=
  let sectionIndex := index / 16777216 % 256
  let grown :=
    m.sections ++ List.replicate (sectionIndex + 1 - m.sections.length) none
  let sect := (grown.getD sectionIndex none).getD Section.new
  ⟨grown.set sectionIndex (some (sect.set (index % 16777216) value))⟩

end Rt

-- ## VM state and execution
-- (src/runtime/vm/mod.rs, src/runtime/opcode/args.rs,
--  src/runtime/opcode/opcodes.rs — the canonical revision.)

namespace Rt

/-- `AoStatus` (src/runtime/status.rs).  The `String` diagnostic payloads
of the three message-carrying variants are not part of the stable API and
are abstracted away; no claim depends on message text. -/
inductive AoStatus where
  | Ok
  | Exit
  | Return (v : AoType)
  | BadDataStack
  | CallStackOverflow
  | CallStackUnderflow
  | DataStackOverflow
  | DataStackUnderflow
  | SetValueInvalidType
  | SetValueInvalidTarget
  | InvalidOperation
  | InternalError
deriving DecidableEq, Repr

/-- The operand union of `src/runtime/opcode/args.rs` (the canonical
revision, with `MP`, `CB` and `MEM`). -/
inductive AoArg where
  | PC
  | DP
  | MP
  | DSB
  | DST
  | CA
  | CB
  | DS
  | MEM
  | Imm (v : AoType)
deriving DecidableEq, Repr

/-- The VM state (`AoVM`, src/runtime/vm/mod.rs).  The host-interrupt
hook is a function field, as in the source. -/
structure AoVM where
  pc : Nat
  dp : Nat
  mp : Nat
  cs : List Nat
  dsb : Nat
  ca : AoType
  cb : AoType
  ds : List AoType
  mem : Memory
  interrupt : Nat → List AoType → Option AoType

/-- `AoVM::new` with a given interrupt hook. -/
def AoVM.new (int : Nat → List AoType → Option AoType) : AoVM :=
  { pc := 0, dp := 0, mp := 0, cs := [], dsb := 0,
    ca := AoType.default, cb := AoType.default,
    ds := [], mem := Memory.new, interrupt := int }

/-- `AoVM::push`: refuses (returning `false`) when the stack already has
more than 1 000 000 entries. -/
def AoVM.push (vm : AoVM) (value : AoType) : Bool × AoVM :=
  if vm.ds.length > 1000000 then (false, vm)
  else (true, { vm with ds := vm.ds ++ [value] })

/-- `AoVM::pop`. -/
def AoVM.pop (vm : AoVM) : Option AoType × AoVM :=
  match vm.ds.getLast? with
  | none => (none, vm)
  | some v => (some v, { vm with ds := vm.ds.dropLast })

/-- `AoArg::get_value`.  Reading `ds` out of bounds or an unallocated
memory tile panics in the source; those paths return `none`. -/
def AoArg.get_value (arg : AoArg) (vm : AoVM) : Option AoType :=
  match arg with
  | .PC => some (.AoPtr vm.pc)
  | .DP => some (.AoPtr vm.dp)
  | .MP => some (.AoPtr vm.mp)
  | .DSB => some (.AoPtr vm.dsb)
  | .DST => some (.AoPtr vm.ds.length)
  | .CA => some vm.ca
  | .CB => some vm.cb
  | .DS => vm.ds.get? vm.dp
  | .MEM => vm.mem.get vm.mp
  | .Imm v => some v

/-- `AoArg::set_value`: returns the status and the updated state; `none`
models the panic of an out-of-bounds `ds[dp] = v` write. -/
def AoArg.set_value (arg : AoArg) (vm : AoVM) (value : AoType) :
    Option (AoStatus × AoVM) :=
  match arg with
  | .PC =>
    match value with
    | .AoPtr p => some (.Ok, { vm with pc := p })
    | _ => some (.SetValueInvalidType, vm)
  | .DP =>
    match value with
    | .AoPtr p => some (.Ok, { vm with dp := p })
    | _ => some (.SetValueInvalidType, vm)
  | .MP =>
    match value with
    | .AoPtr p => some (.Ok, { vm with mp := p })
    | _ => some (.SetValueInvalidType, vm)
  | .DSB =>
    match value with
    | .AoPtr p => some (.Ok, { vm with dsb := p })
    | _ => some (.SetValueInvalidType, vm)
  | .DST => some (.SetValueInvalidTarget, vm)
  | .CA => some (.Ok, { vm with ca := value })
  | .CB => some (.Ok, { vm with cb := value })
  | .DS =>
    if vm.dp < vm.ds.length then
      some (.Ok, { vm with ds := vm.ds.set vm.dp value })
    else none
  | .MEM => some (.Ok, { vm with mem := vm.mem.set vm.mp value })
  | .Imm _ => some (.SetValueInvalidTarget, vm)

/-- Truthiness of `ca` as tested by `JT`/`JTA`/`JF`/`JFA`: Bool payload,
nonzero `i32`, IEEE `!= 0.0` for floats, otherwise false. -/
def truthy : AoType → Bool
  | .AoBool b => b
  | .AoInt i => i != 0
  | .AoFloat f => !fEq f 0
  | _ => false

/-- The instruction set of `src/runtime/opcode/opcodes.rs` restricted to
the opcodes the verified claims exercise (the arithmetic, logic,
shift, cast and predicate families are omitted; no claim touches
them).  `Jmp`/`Jt`/`Jf` carry the mathematical value of their `i32`
displacement. -/
inductive AoInstr where
  | Nop
  | Call (addr : Nat)
  | Ret
  | Jmp (addr : Int)
  | Jmpa (addr : Nat)
  | Jt (addr : Int)
  | Jta (addr : Nat)
  | Jf (addr : Int)
  | Jfa (addr : Nat)
  | Mov (dst src : AoArg)
  | Int (id : Nat)
  | Push (src : AoArg)
  | Pop (to_ca : Bool)
  | Equ (src : AoArg)
  | Neq (src : AoArg)
  | Gt (src : AoArg)
  | Lt (src : AoArg)
  | Ge (src : AoArg)
  | Le (src : AoArg)
  | Arg (offset : Nat)
  | Cnf (argc : Nat)
deriving Repr

/-- Lexicographic order on byte lists: Rust's `Ord` on `String`/`str`. -/
def lexLt : List Nat → List Nat → Bool
  | [], [] => false
  | [], _ :: _ => true
  | _ :: _, [] => false
  | a :: as', b :: bs' =>
    if a < b then true else if b < a then false else lexLt as' bs'

/-- The comparison computed by `Equ` (field order: `ca` then operand).
`Ptr` pairs fall into the wildcard arm of the source `match`. -/
def equCmp : AoType → AoType → Bool
  | .AoBool l, .AoBool r => l == r
  | .AoInt l, .AoInt r => l == r
  | .AoFloat l, .AoFloat r => fEq l r
  | .AoString l, .AoString r => l == r
  | _, _ => false

/-- The comparison computed by `Neq`. -/
def neqCmp : AoType → AoType → Bool
  | .AoBool l, .AoBool r => l != r
  | .AoInt l, .AoInt r => l != r
  | .AoFloat l, .AoFloat r => !fEq l r
  | .AoString l, .AoString r => l != r
  | _, _ => true

/-- `Gt`/`Lt`/`Ge`/`Le` share one shape: a same-tag comparison over
Bool/Int/Float/String, with every other pair — `Ptr` included — falling
into the wildcard `InvalidOperation` arm.  The four boolean parameters
are the per-tag comparisons. -/
def ordCmp (boolCmp : Bool → Bool → Bool) (intCmp : Int → Int → Bool)
    (floatCmp : Nat → Nat → Bool) (strCmp : List Nat → List Nat → Bool) :
    AoType → AoType → Option Bool
  | .AoBool l, .AoBool r => some (boolCmp l r)
  | .AoInt l, .AoInt r => some (intCmp (toInt32 l) (toInt32 r))
  | .AoFloat l, .AoFloat r => some (floatCmp l r)
  | .AoString l, .AoString r => some (strCmp l r)
  | _, _ => none

/-- `Gt`: Rust `left > right` per tag. -/
def gtCmp : AoType → AoType → Option Bool :=
  ordCmp (fun l r => l && !r) (fun l r => decide (r < l))
    (fun l r => fLt r l) (fun l r => lexLt r l)

/-- `Lt`: Rust `left < right` per tag. -/
def ltCmp : AoType → AoType → Option Bool :=
  ordCmp (fun l r => !l && r) (fun l r => decide (l < r))
    (fun l r => fLt l r) (fun l r => lexLt l r)

/-- `Ge`: Rust `left >= right` per tag. -/
def geCmp : AoType → AoType → Option Bool :=
  ordCmp (fun l r => l || !r) (fun l r => decide (r ≤ l))
    (fun l r => fLe r l) (fun l r => !lexLt l r)

/-- `Le`: Rust `left <= right` per tag. -/
def leCmp : AoType → AoType → Option Bool :=
  ordCmp (fun l r => !l || r) (fun l r => decide (l ≤ r))
    (fun l r => fLe l r) (fun l r => !lexLt r l)

/-- One comparison opcode: evaluate the operand, compare against `ca`,
store the Bool or fail with `InvalidOperation`. -/
def execCmp (cmp : AoType → AoType → Option Bool) (src : AoArg)
    (vm : AoVM) : Option (AoStatus × AoVM) :=
  match src.get_value vm with
  | none => none
  | some right =>
    match cmp vm.ca right with
    | some b => some (.Ok, { vm with ca := .AoBool b })
    | none => some (.InvalidOperation, vm)

/-- Like `execCmp` but total in the value domain (`Equ`/`Neq` never
raise `InvalidOperation`). -/
def execEq (cmp : AoType → AoType → Bool) (src : AoArg) (vm : AoVM) :
    Option (AoStatus × AoVM) :=
  match src.get_value vm with
  | none => none
  | some right => some (.Ok, { vm with ca := .AoBool (cmp vm.ca right) })

/-- `execute` of each opcode (`impl AoOpcode for …` in
src/runtime/opcode/opcodes.rs), on the state whose `pc` has already been
advanced by the fetch.  `none` models a Rust panic:

* `Ret`/`Int` with `dsb == 0` (`vm.dsb - 1` underflows in a debug build;
  a release build wraps and the `ds[4294967295]` index panics);
* `Ret`/`Int` whose frame-base slot lies outside `ds`;
* `Int` with `dsb > |ds|` (the `vm.ds[vm.dsb..]` slice panics);
* `Cnf argc` with `argc > |ds|` (`vm.ds.len() - argc` underflow);
* operand reads/writes through `ds`/`mem` that index out of bounds or
  hit an unallocated memory tile. -/
def execute (i : AoInstr) (vm : AoVM) : Option (AoStatus × AoVM) :=
  match i with
  | .Nop => some (.Ok, vm)
  | .Call addr =>
    if vm.cs.length ≥ 100000 then some (.CallStackOverflow, vm)
    else some (.Ok, { vm with cs := vm.cs ++ [vm.pc], pc := addr })
  | .Ret =>
    if vm.cs.isEmpty then some (.CallStackUnderflow, vm)
    else if vm.dsb = 0 then none
    else
      let slot := vm.dsb - 1
      match vm.ds.get? slot with
      | none => none
      | some (.AoPtr ptr) =>
        some (.Ok, { vm with dsb := ptr, ds := vm.ds.take slot,
                             pc := vm.cs.getLast!, cs := vm.cs.dropLast })
      | some _ => some (.BadDataStack, vm)
  | .Jmp addr => some (.Ok, { vm with pc := ofInt32 (toInt32 vm.pc + addr - 1) })
  | .Jmpa addr => some (.Ok, { vm with pc := addr })
  | .Jt addr =>
    if truthy vm.ca then
      some (.Ok, { vm with pc := ofInt32 (toInt32 vm.pc + addr - 1) })
    else some (.Ok, vm)
  | .Jta addr =>
    if truthy vm.ca then some (.Ok, { vm with pc := addr }) else some (.Ok, vm)
  | .Jf addr =>
    if truthy vm.ca then some (.Ok, vm)
    else some (.Ok, { vm with pc := ofInt32 (toInt32 vm.pc + addr - 1) })
  | .Jfa addr =>
    if truthy vm.ca then some (.Ok, vm) else some (.Ok, { vm with pc := addr })
  | .Mov dst src =>
    match src.get_value vm with
    | none => none
    | some v =>
      match dst.set_value vm v with
      | none => none
      | some (.Ok, vm') => some (.Ok, vm')
      | some (err, vm') => some (err, vm')
  | .Int id =>
    if id = 0 then some (.Exit, vm)
    else if vm.dsb > vm.ds.length then none
    else
      let args := vm.ds.drop vm.dsb
      let vm1 :=
        match vm.interrupt id args with
        | some value => { vm with ca := value }
        | none => vm
      if vm1.dsb = 0 then none
      else
        let slot := vm1.dsb - 1
        match vm1.ds.get? slot with
        | none => none
        | some (.AoPtr ptr) =>
          some (.Ok, { vm1 with dsb := ptr, ds := vm1.ds.take slot })
        | some _ => some (.BadDataStack, vm1)
  | .Push src =>
    match src.get_value vm with
    | none => none
    | some v =>
      match vm.push v with
      | (true, vm') => some (.Ok, vm')
      | (false, vm') => some (.DataStackOverflow, vm')
  | .Pop to_ca =>
    match vm.pop with
    | (some value, vm') =>
      if to_ca then some (.Ok, { vm' with ca := value })
      else some (.Ok, vm')
    | (none, vm') => some (.DataStackUnderflow, vm')
  | .Equ src => execEq equCmp src vm
  | .Neq src => execEq neqCmp src vm
  | .Gt src => execCmp gtCmp src vm
  | .Lt src => execCmp ltCmp src vm
  | .Ge src => execCmp geCmp src vm
  | .Le src => execCmp leCmp src vm
  | .Arg offset => some (.Ok, { vm with dp := (vm.dsb + offset) % w32 })
  | .Cnf argc =>
    if argc > vm.ds.length then none
    else some (.Ok, { vm with dsb := vm.ds.length - argc })

/-- `AoVM::step`: past-the-end `pc` yields `Exit` without touching the
state; otherwise the fetch advances `pc` and dispatches. -/
def step (program : List AoInstr) (vm : AoVM) : Option (AoStatus × AoVM) :=
  match program.get? vm.pc with
  | some instr => execute instr { vm with pc := vm.pc + 1 }
  | none => some (.Exit, vm)

/-- `AoVM::run`, with explicit fuel (the source loops until a non-`Ok`
status; fuel exhaustion returns `none`). -/
def runFuel : Nat → List AoInstr → AoVM → Option (AoStatus × AoVM)
  | 0, _, _ => none
  | fuel + 1, program, vm =>
    match step program vm with
    | none => none
    | some (.Ok, vm') => runFuel fuel program vm'
    | some (st, vm') => some (st, vm')

end Rt

-- ## Well-formedness and Rust-equality of serializable programs

namespace Asm

/-- A Rust-representable operand: immediates carry representable values. -/
def wfArg : AoArg → Prop
  | .Imm v => wfType v
  | _ => True

/-- A Rust-representable instruction: word operands fit their width and
`Arg` operands are representable. -/
def wfOp : AoOpCode → Prop
  | .CALL addr => addr < w32
  | .JMP addr => addr < w32
  | .JT addr => addr < w32
  | .JF addr => addr < w32
  | .MOV dst src => wfArg dst ∧ wfArg src
  | .INT id => id < 256
  | .PUSH src => wfArg src
  | .ADD src => wfArg src
  | .SUB src => wfArg src
  | .MUL src => wfArg src
  | .DIV src => wfArg src
  | .REM src => wfArg src
  | .AND src => wfArg src
  | .OR src => wfArg src
  | .XOR src => wfArg src
  | .BAND src => wfArg src
  | .BOR src => wfArg src
  | .BXOR src => wfArg src
  | .SHL src => wfArg src
  | .SHR src => wfArg src
  | .EQU src => wfArg src
  | .NEQ src => wfArg src
  | .GT src => wfArg src
  | .LT src => wfArg src
  | .GE src => wfArg src
  | .LE src => wfArg src
  | .ARG offset => offset < w32
  | .CNF argc => argc < w32
  | _ => True

/-- A Rust-representable program. -/
def wfProg (p : List AoOpCode) : Prop := ∀ op ∈ p, wfOp op

/-- No `AoFloat` payload is a NaN. -/
def noNaNType : AoType → Prop
  | .AoFloat f => fIsNaN f = false
  | _ => True

def noNaNArg : AoArg → Prop
  | .Imm v => noNaNType v
  | _ => True

def noNaNOp : AoOpCode → Prop
  | .MOV dst src => noNaNArg dst ∧ noNaNArg src
  | .PUSH src => noNaNArg src
  | .ADD src => noNaNArg src
  | .SUB src => noNaNArg src
  | .MUL src => noNaNArg src
  | .DIV src => noNaNArg src
  | .REM src => noNaNArg src
  | .AND src => noNaNArg src
  | .OR src => noNaNArg src
  | .XOR src => noNaNArg src
  | .BAND src => noNaNArg src
  | .BOR src => noNaNArg src
  | .BXOR src => noNaNArg src
  | .SHL src => noNaNArg src
  | .SHR src => noNaNArg src
  | .EQU src => noNaNArg src
  | .NEQ src => noNaNArg src
  | .GT src => noNaNArg src
  | .LT src => noNaNArg src
  | .GE src => noNaNArg src
  | .LE src => noNaNArg src
  | _ => True

def noNaNProg (p : List AoOpCode) : Prop := ∀ op ∈ p, noNaNOp op

/-- Rust's derived `PartialEq` on `AoArg` (float immediates compare by
IEEE equality). -/
def rustEqArg : AoArg → AoArg → Bool
  | .DSB, .DSB => true
  | .DST, .DST => true
  | .PC, .PC => true
  | .DP, .DP => true
  | .CA, .CA => true
  | .DS, .DS => true
  | .GVS, .GVS => true
  | .Imm a, .Imm b => rustEqType a b
  | _, _ => false

/-- Rust's derived `PartialEq` on `AoOpCode`. -/
def rustEqOp : AoOpCode → AoOpCode → Bool
  | .NOP, .NOP => true
  | .CALL a, .CALL b => a == b
  | .RET, .RET => true
  | .JMP a, .JMP b => a == b
  | .JT a, .JT b => a == b
  | .JF a, .JF b => a == b
  | .MOV d1 s1, .MOV d2 s2 => rustEqArg d1 d2 && rustEqArg s1 s2
  | .INT a, .INT b => a == b
  | .PUSH a, .PUSH b => rustEqArg a b
  | .POP a, .POP b => a == b
  | .ADD a, .ADD b => rustEqArg a b
  | .SUB a, .SUB b => rustEqArg a b
  | .MUL a, .MUL b => rustEqArg a b
  | .DIV a, .DIV b => rustEqArg a b
  | .REM a, .REM b => rustEqArg a b
  | .INC, .INC => true
  | .DEC, .DEC => true
  | .AND a, .AND b => rustEqArg a b
  | .OR a, .OR b => rustEqArg a b
  | .XOR a, .XOR b => rustEqArg a b
  | .NOT, .NOT => true
  | .BAND a, .BAND b => rustEqArg a b
  | .BOR a, .BOR b => rustEqArg a b
  | .BXOR a, .BXOR b => rustEqArg a b
  | .BNOT, .BNOT => true
  | .SHL a, .SHL b => rustEqArg a b
  | .SHR a, .SHR b => rustEqArg a b
  | .EQU a, .EQU b => rustEqArg a b
  | .NEQ a, .NEQ b => rustEqArg a b
  | .GT a, .GT b => rustEqArg a b
  | .LT a, .LT b => rustEqArg a b
  | .GE a, .GE b => rustEqArg a b
  | .LE a, .LE b => rustEqArg a b
  | .CSI, .CSI => true
  | .CSF, .CSF => true
  | .CSP, .CSP => true
  | .CSS, .CSS => true
  | .ISB, .ISB => true
  | .ISI, .ISI => true
  | .ISF, .ISF => true
  | .ISP, .ISP => true
  | .ISS, .ISS => true
  | .ARG a, .ARG b => a == b
  | .CNF a, .CNF b => a == b
  | _, _ => false

/-- Rust's `==` on `Vec<AoOpCode>`: equal lengths, elementwise `==`. -/
def rustEqProg : List AoOpCode → List AoOpCode → Bool
  | [], [] => true
  | a :: as', b :: bs' => rustEqOp a b && rustEqProg as' bs'
  | _, _ => false

/-- The program `[push Imm(Float(NaN))]`: the quiet-NaN bit pattern
`0x7FC00000`. -/
def nanProg : List AoOpCode := [.PUSH (.Imm (.AoFloat 0x7FC00000))]

end Asm

-- ## Concrete states for the runtime scenarios

/-- A fresh VM whose interrupt hook always declines to return a value. -/
def vm0 : Rt.AoVM := Rt.AoVM.new (fun _ _ => none)

/-- A fresh VM with a chosen `ca`. -/
def vmCA (v : AoType) : Rt.AoVM := { vm0 with ca := v }

/-- A fresh VM with one return address on the call stack (for the `RET`
scenarios: `dsb = 0`, empty `ds`). -/
def vmRet : Rt.AoVM := { vm0 with cs := [0] }

/-- The spec's frame-unwind scenario handler: records its arguments (a
side effect outside the model) and returns `Some(Int(99))` for id 5. -/
def vm7 : Rt.AoVM := Rt.AoVM.new (fun id _ => if id = 5 then some (.AoInt 99) else none)

/-- The spec's frame-unwind scenario program
`[push 7p; push 1; push 2; cnf 2; int 5]`. -/
def prog7 : List Rt.AoInstr :=
  [.Push (.Imm (.AoPtr 7)), .Push (.Imm (.AoInt 1)),
   .Push (.Imm (.AoInt 2)), .Cnf 2, .Int 5]

/-- The canonical interrupt preamble
`push dsb; push v₁ … push vₙ; cnf n; int k`. -/
def pushSeq (vs : List AoType) (k : Nat) : List Rt.AoInstr :=
  .Push .DSB :: (vs.map (fun v => .Push (.Imm v)) ++ [.Cnf vs.length, .Int k])

namespace Rt

/-- Execute exactly `n` steps, all of which must return `Ok`. -/
def stepsOk : Nat → List AoInstr → AoVM → Option AoVM
  | 0, _, vm => some vm
  | n + 1, prog, vm =>
    match step prog vm with
    | some (.Ok, vm') => stepsOk n prog vm'
    | _ => none

end Rt

-- Decidability of the well-formedness predicates (used to discharge
-- hypotheses at concrete programs).

instance : DecidablePred Asm.wfArg := by
  intro a; cases a <;> simp [Asm.wfArg] <;> infer_instance

instance : DecidablePred Asm.wfOp := by
  intro op; cases op <;> simp [Asm.wfOp] <;> infer_instance

instance : DecidablePred Asm.wfProg := by
  intro p; unfold Asm.wfProg; infer_instance

instance : DecidablePred Asm.noNaNType := by
  intro v; cases v <;> simp [Asm.noNaNType] <;> infer_instance

instance : DecidablePred Asm.noNaNArg := by
  intro a; cases a <;> simp [Asm.noNaNArg] <;> infer_instance

instance : DecidablePred Asm.noNaNOp := by
  intro op; cases op <;> simp [Asm.noNaNOp] <;> infer_instance

instance : DecidablePred Asm.noNaNProg := by
  intro p; unfold Asm.noNaNProg; infer_instance

def roundProg : List Asm.AoOpCode :=
  [.PUSH (.Imm (.AoString [72, 105])), .MOV .CA .DS, .CALL 70000, .JMP 3,
   .POP true, .INT 2, .NOP, .EQU (.Imm (.AoFloat 1065353216)), .CNF 4]


-- ## Claim theorems

/-- C3 (code_bug): sparse memory is *not* read-sparse as claimed.  After
`mem.set(256, Int(1))` the read `mem.get(0)` hits a `None` chip
placeholder and panics (`.unwrap()` in `Page::get`), modelled by `none`,
instead of returning `Int(0)`.  The get-after-set and write-locality
parts of the claim do hold at these inputs. -/
theorem mem_sparsity_bug :
    Rt.Memory.get (Rt.Memory.set Rt.Memory.new 256 (.AoInt 1)) 0 = none
  ∧ Rt.Memory.get (Rt.Memory.set Rt.Memory.new 256 (.AoInt 1)) 256
      = some (.AoInt 1)
  ∧ Rt.Memory.get (Rt.Memory.set (Rt.Memory.set Rt.Memory.new 5 (.AoInt 9)) 6
      (.AoInt 8)) 5 = some (.AoInt 9) := by
  refine ⟨by decide, by decide, by decide⟩

/-- C7 (counterexample): running `[push 7p; push 1; push 2; cnf 2; int 5]`
on a fresh VM whose handler returns `Some(Int(99))` does *not* end with
`|ds| = 1, dsb = 0`: the claimed post-state `(|ds|, dsb, ca) = (1, 0, 99)`
is refuted. -/
theorem frame_unwind_scenario_refuted :
    ((Rt.runFuel 6 prog7 vm7).map fun x => (x.2.ds.length, x.2.dsb, x.2.ca))
      ≠ some (1, 0, .AoInt 99) := by decide

/-- C7 (amended): the run completes with `Exit`, `|ds| = 0` (the interrupt
unwind consumes the `Ptr(7)` frame-base slot), `dsb = 7` (restored from
that slot), and `ca = Int(99)` (the handler's return value). -/
theorem frame_unwind_scenario_actual :
    ((Rt.runFuel 6 prog7 vm7).map fun x => (x.1, x.2.ds.length, x.2.dsb, x.2.ca))
      = some (.Exit, 0, 7, .AoInt 99) := by decide

/-- C8 (code_bug): deserialization of malformed input does not uniformly
return `None`.  A truncated `CALL` record, an unknown `Arg` tag, an
unknown typed-value tag, and invalid UTF-8 in a `String` payload all
panic (out-of-bounds slice or `unwrap` on `None`); only an unknown
opcode id aborts cleanly with `None`. -/
theorem deserialize_malformed :
    Asm.deserialize [0x10] = .panic
  ∧ Asm.deserialize [0x20, 0xFF] = .panic
  ∧ Asm.deserialize [0x30, 0x08, 0x06] = .panic
  ∧ Asm.deserialize [0x30, 0x08, 0x05, 1, 0, 0, 0, 0xFF] = .panic
  ∧ Asm.deserialize [0xC0] = .fail := by
  refine ⟨by decide, by decide, by decide, by decide, by decide⟩

/-- C9 (counterexample): `serialize_arg` does not use the claimed tag
assignment: the `pc` operand is encoded as `0x03`, not `0x01`. -/
theorem serialize_arg_pc_refuted : Asm.serialize_arg .PC ≠ [0x01] := by decide

/-- C9 (amended): the actual one-byte tag assignment is `dsb=0x01,
dst=0x02, pc=0x03, dp=0x04, ca=0x05, ds=0x06, gvs=0x07, Imm=0x08`, and an
`Imm` tag byte is followed by a typed-value record. -/
theorem serialize_arg_tag_map :
    Asm.serialize_arg .DSB = [0x01] ∧ Asm.serialize_arg .DST = [0x02]
  ∧ Asm.serialize_arg .PC = [0x03] ∧ Asm.serialize_arg .DP = [0x04]
  ∧ Asm.serialize_arg .CA = [0x05] ∧ Asm.serialize_arg .DS = [0x06]
  ∧ Asm.serialize_arg .GVS = [0x07]
  ∧ ∀ v : AoType, Asm.serialize_arg (.Imm v) = 0x08 :: Asm.serialize_type v := by
  exact ⟨rfl, rfl, rfl, rfl, rfl, rfl, rfl, fun v => rfl⟩

/-- C4 (counterexample): `EQU` with `ca = Ptr(7)` and source `Ptr(7)`
leaves `ca = Bool(false)`, not `Bool(7 == 7) = Bool(true)`: `Ptr` pairs
fall into the source's wildcard arm. -/
theorem equ_ptr_refuted :
    ((Rt.step [.Equ (.Imm (.AoPtr 7))] (vmCA (.AoPtr 7))).map fun x => x.2.ca)
      ≠ some (.AoBool true) := by decide

/-- C4 (amended): `EQU`/`NEQ` always return `Ok` with a `Bool` in `ca`
(never an error); same-tag Bool/Int/Float/String operands compare by the
derived structural (IEEE for floats) equality; `Ptr` pairs and mixed-tag
pairs yield `Bool(false)` for `EQU` and `Bool(true)` for `NEQ`. -/
theorem equ_neq_exec (vm : Rt.AoVM) (r : AoType) (hpc : vm.pc = 0) :
    (Rt.step [.Equ (.Imm r)] vm
        = some (.Ok, { vm with pc := 1, ca := .AoBool (Rt.equCmp vm.ca r) }))
  ∧ (Rt.step [.Neq (.Imm r)] vm
        = some (.Ok, { vm with pc := 1, ca := .AoBool (Rt.neqCmp vm.ca r) }))
  ∧ (∀ p q, vm.ca = .AoPtr p → r = .AoPtr q →
        Rt.equCmp vm.ca r = false ∧ Rt.neqCmp vm.ca r = true)
  ∧ (vm.ca.tag = r.tag → vm.ca.tag ≠ 3 →
        Rt.equCmp vm.ca r = rustEqType vm.ca r
        ∧ Rt.neqCmp vm.ca r = !rustEqType vm.ca r)
  ∧ (vm.ca.tag ≠ r.tag →
        Rt.equCmp vm.ca r = false ∧ Rt.neqCmp vm.ca r = true) := by
  refine ⟨?_, ?_, ?_, ?_, ?_⟩
  · simp [Rt.step, hpc, Rt.execute, Rt.execEq, Rt.AoArg.get_value]
  · simp [Rt.step, hpc, Rt.execute, Rt.execEq, Rt.AoArg.get_value]
  · intro p q hl hr; rw [hl, hr]; exact ⟨rfl, rfl⟩
  · intro hsame hne
    cases hca : vm.ca <;> cases hr : r <;>
      simp_all [AoType.tag, Rt.equCmp, Rt.neqCmp, rustEqType, bne]
  · intro hne
    cases hca : vm.ca <;> cases hr : r <;>
      simp_all [AoType.tag, Rt.equCmp, Rt.neqCmp, rustEqType]

/-- Witness for `equ_neq_exec` at `ca = Int(3)`, source `Int(3)`. -/
theorem equ_neq_exec_witness :
    Rt.step [.Equ (.Imm (.AoInt 3))] (vmCA (.AoInt 3))
      = some (.Ok, { vmCA (.AoInt 3) with pc := 1, ca := .AoBool true }) := by
  have h := (equ_neq_exec (vmCA (.AoInt 3)) (.AoInt 3) rfl).1
  simpa using h

/-- C5 (counterexample): `GT` with `ca = Ptr(7)` and source `Ptr(3)`
returns `InvalidOperation`, not `Ok` with `Bool(7 > 3)`: `Ptr` pairs fall
into the source's wildcard arm. -/
theorem gt_ptr_refuted :
    ((Rt.step [.Gt (.Imm (.AoPtr 3))] (vmCA (.AoPtr 7))).map fun x => x.1)
      ≠ some .Ok := by decide

/-- C5 (amended): `GT`/`LT`/`GE`/`LE` return `Ok` with the Bool ordering
result exactly when the per-tag comparison is defined — same-tag
Bool (false < true), Int (signed), Float (IEEE), String (lexicographic
by code units) — and `InvalidOperation` otherwise; `Ptr` pairs (same-tag
included) and mixed-tag pairs are always undefined. -/
theorem ord_cmp_exec (vm : Rt.AoVM) (r : AoType) (hpc : vm.pc = 0) :
    (∀ b, Rt.gtCmp vm.ca r = some b →
        Rt.step [.Gt (.Imm r)] vm = some (.Ok, { vm with pc := 1, ca := .AoBool b }))
  ∧ (Rt.gtCmp vm.ca r = none →
        Rt.step [.Gt (.Imm r)] vm = some (.InvalidOperation, { vm with pc := 1 }))
  ∧ (∀ b, Rt.ltCmp vm.ca r = some b →
        Rt.step [.Lt (.Imm r)] vm = some (.Ok, { vm with pc := 1, ca := .AoBool b }))
  ∧ (Rt.ltCmp vm.ca r = none →
        Rt.step [.Lt (.Imm r)] vm = some (.InvalidOperation, { vm with pc := 1 }))
  ∧ (∀ b, Rt.geCmp vm.ca r = some b →
        Rt.step [.Ge (.Imm r)] vm = some (.Ok, { vm with pc := 1, ca := .AoBool b }))
  ∧ (Rt.geCmp vm.ca r = none →
        Rt.step [.Ge (.Imm r)] vm = some (.InvalidOperation, { vm with pc := 1 }))
  ∧ (∀ b, Rt.leCmp vm.ca r = some b →
        Rt.step [.Le (.Imm r)] vm = some (.Ok, { vm with pc := 1, ca := .AoBool b }))
  ∧ (Rt.leCmp vm.ca r = none →
        Rt.step [.Le (.Imm r)] vm = some (.InvalidOperation, { vm with pc := 1 }))
  ∧ (∀ p q, vm.ca = .AoPtr p → r = .AoPtr q →
        Rt.gtCmp vm.ca r = none ∧ Rt.ltCmp vm.ca r = none
        ∧ Rt.geCmp vm.ca r = none ∧ Rt.leCmp vm.ca r = none)
  ∧ (vm.ca.tag ≠ r.tag →
        Rt.gtCmp vm.ca r = none ∧ Rt.ltCmp vm.ca r = none
        ∧ Rt.geCmp vm.ca r = none ∧ Rt.leCmp vm.ca r = none)
  ∧ (vm.ca.tag = r.tag → vm.ca.tag ≠ 3 →
        (Rt.gtCmp vm.ca r).isSome ∧ (Rt.ltCmp vm.ca r).isSome
        ∧ (Rt.geCmp vm.ca r).isSome ∧ (Rt.leCmp vm.ca r).isSome) := by
  refine ⟨?_, ?_, ?_, ?_, ?_, ?_, ?_, ?_, ?_, ?_, ?_⟩
  · intro b h; simp [Rt.step, hpc, Rt.execute, Rt.execCmp, Rt.AoArg.get_value, h]
  · intro h; simp [Rt.step, hpc, Rt.execute, Rt.execCmp, Rt.AoArg.get_value, h]
  · intro b h; simp [Rt.step, hpc, Rt.execute, Rt.execCmp, Rt.AoArg.get_value, h]
  · intro h; simp [Rt.step, hpc, Rt.execute, Rt.execCmp, Rt.AoArg.get_value, h]
  · intro b h; simp [Rt.step, hpc, Rt.execute, Rt.execCmp, Rt.AoArg.get_value, h]
  · intro h; simp [Rt.step, hpc, Rt.execute, Rt.execCmp, Rt.AoArg.get_value, h]
  · intro b h; simp [Rt.step, hpc, Rt.execute, Rt.execCmp, Rt.AoArg.get_value, h]
  · intro h; simp [Rt.step, hpc, Rt.execute, Rt.execCmp, Rt.AoArg.get_value, h]
  · intro p q hl hr; rw [hl, hr]
    exact ⟨rfl, rfl, rfl, rfl⟩
  · intro hne
    cases hca : vm.ca <;> cases hr : r <;>
      simp_all [AoType.tag, Rt.gtCmp, Rt.ltCmp, Rt.geCmp, Rt.leCmp, Rt.ordCmp]
  · intro hsame hne
    cases hca : vm.ca <;> cases hr : r <;>
      simp_all [AoType.tag, Rt.gtCmp, Rt.ltCmp, Rt.geCmp, Rt.leCmp, Rt.ordCmp]

/-- Witness for `ord_cmp_exec` at `ca = Int(3)`, `GT Int(2)`. -/
theorem ord_cmp_exec_witness :
    Rt.step [.Gt (.Imm (.AoInt 2))] (vmCA (.AoInt 3))
      = some (.Ok, { vmCA (.AoInt 3) with pc := 1, ca := .AoBool true }) := by
  have h := (ord_cmp_exec (vmCA (.AoInt 3)) (.AoInt 2) rfl).1 true (by decide)
  simpa using h

/-- C10 (counterexample): execution is *not* total.  `RET` with a
nonempty call stack panics — not `BadDataStack` — when `dsb = 0`
(`vm.dsb - 1` underflow / wild index) or when the frame-base slot lies
outside `ds`; and reading the `ds` operand with `dp` past the stack
panics in `get_value`. -/
theorem step_panics :
    Rt.step [.Ret] vmRet = none
  ∧ Rt.step [.Ret] { vm0 with cs := [0], dsb := 5 } = none
  ∧ Rt.step [.Push .DS] vm0 = none := by
  refine ⟨rfl, rfl, rfl⟩

/-- C10 (amended): `RET` with a nonempty call stack returns
`BadDataStack` exactly when the frame-base slot `ds[dsb − 1]` exists
(`1 ≤ dsb` and `dsb − 1 < |ds|`) but holds a non-`Ptr` value; the
out-of-range cases of the claim panic instead (`step_panics`). -/
theorem ret_bad_frame_status (vm : Rt.AoVM) (hpc : vm.pc = 0)
    (hcs : vm.cs ≠ []) (h1 : 1 ≤ vm.dsb) (h2 : vm.dsb - 1 < vm.ds.length)
    (h3 : ∀ p, vm.ds.get? (vm.dsb - 1) ≠ some (.AoPtr p)) :
    Rt.step [.Ret] vm = some (.BadDataStack, { vm with pc := 1 }) := by
  have hcs' : vm.cs.isEmpty = false := by
    simpa [List.isEmpty_iff] using hcs
  have hdsb : ¬ vm.dsb = 0 := by omega
  rcases hv : vm.ds.get? (vm.dsb - 1) with _ | v
  · have : vm.ds.length ≤ vm.dsb - 1 := by
      simpa [List.get?_eq_getElem?, List.getElem?_eq_none_iff] using hv
    omega
  · rw [List.get?_eq_getElem?] at hv
    cases v <;> first
      | exact absurd (by rw [← List.get?_eq_getElem?] at hv; exact hv) (h3 _)
      | simp [Rt.step, hpc, Rt.execute, hcs', hdsb, hv]

/-- Witness for `ret_bad_frame_status`: `cs = [0]`, `dsb = 1`,
`ds = [Int(5)]`. -/
theorem ret_bad_frame_status_witness :
    Rt.step [.Ret] { vm0 with cs := [0], dsb := 1, ds := [.AoInt 5] }
      = some (.BadDataStack,
          { vm0 with cs := [0], dsb := 1, ds := [.AoInt 5], pc := 1 }) := by
  exact ret_bad_frame_status _ rfl (by decide) (by decide) (by decide)
    (fun p => by simp)

/-- Arithmetic of the relative-jump update: after the fetch advanced
`pc` to `cur + 1`, the `(pc as i32 + d - 1) as u32` computation lands on
`cur + d` whenever that target fits in a `u32`. -/
theorem ofInt32_shift (a : Nat) (d : Int) (h0 : 0 ≤ (a : Int) + d)
    (h1 : (a : Int) + d < (w32 : Int)) :
    ofInt32 (toInt32 (a + 1) + d - 1) = ((a : Int) + d).toNat := by
  simp only [toInt32, ofInt32, w32, w31] at *
  push_cast at *
  split_ifs <;> omega

/-- C6: `step` returns `Exit` leaving the state untouched when
`pc ≥ |program|`; otherwise it pre-increments `pc` and dispatches, so a
`JMP d` fetched at index `cur` lands on `pc = cur + d` (the executor's
`pc := pc + d − 1` after the pre-increment) whenever the target is a
representable address. -/
theorem step_semantics (prog : List Rt.AoInstr) (vm : Rt.AoVM) :
    (vm.pc ≥ prog.length → Rt.step prog vm = some (.Exit, vm))
  ∧ (∀ cur d, vm.pc = cur → prog.get? cur = some (.Jmp d) →
      0 ≤ (cur : Int) + d → (cur : Int) + d < (w32 : Int) →
      Rt.step prog vm = some (.Ok, { vm with pc := ((cur : Int) + d).toNat })) := by
  constructor
  · intro h
    have hnone : prog.get? vm.pc = none := by
      simp [List.get?_eq_getElem?, List.getElem?_eq_none_iff]; omega
    rw [List.get?_eq_getElem?] at hnone
    simp [Rt.step, hnone]
  · intro cur d hcur hget hlo hhi
    subst hcur
    rw [List.get?_eq_getElem?] at hget
    have hpc := ofInt32_shift vm.pc d hlo hhi
    simp [Rt.step, hget, Rt.execute, hpc]

/-- Witness for `step_semantics`: the empty program exits immediately,
and `jmp 2` fetched at index 0 lands on `pc = 2`. -/
theorem step_semantics_witness :
    Rt.step ([] : List Rt.AoInstr) vm0 = some (.Exit, vm0)
  ∧ Rt.step [.Jmp 2, .Nop, .Nop] vm0 = some (.Ok, { vm0 with pc := 2 }) := by
  constructor
  · exact (step_semantics [] vm0).1 (by decide)
  · have h := (step_semantics [.Jmp 2, .Nop, .Nop] vm0).2 0 2 rfl rfl
      (by decide) (by decide)
    simpa using h

/-- Indexing an appended list past a prefix. -/
theorem get_append_add {α : Type} (pre l : List α) (i : Nat) :
    (pre ++ l).get? (pre.length + i) = l.get? i := by
  simp [List.get?_eq_getElem?, List.getElem?_append_right (Nat.le_add_right pre.length i)]

/-- `n` successful (`Ok`) steps consume exactly `n` rounds of `run` fuel. -/
theorem runFuel_stepsOk (prog : List Rt.AoInstr) (n f : Nat) :
    ∀ vm vm', Rt.stepsOk n prog vm = some vm' →
      Rt.runFuel (n + f) prog vm = Rt.runFuel f prog vm' := by
  induction n with
  | zero =>
    intro vm vm' h
    simp [Rt.stepsOk] at h; subst h; rw [Nat.zero_add]
  | succ n ih =>
    intro vm vm' h
    rw [Rt.stepsOk] at h
    rcases hs : Rt.step prog vm with _ | ⟨st, vm1⟩ <;> rw [hs] at h
    · exact absurd h (by simp)
    · cases st <;> simp at h <;> try exact absurd h (by simp)
      · have hn : n + 1 + f = (n + f) + 1 := by omega
        rw [hn, Rt.runFuel, hs]
        exact ih vm1 vm' h

/-- A block of `push Imm(v)` instructions executes in as many steps,
appending the pushed values, as long as the stack limit is respected. -/
theorem stepsOk_pushes (vs : List AoType) :
    ∀ (pre suf : List Rt.AoInstr) (vm : Rt.AoVM), vm.pc = pre.length →
      vm.ds.length + vs.length ≤ 1000001 →
      Rt.stepsOk vs.length
          (pre ++ vs.map (fun v => Rt.AoInstr.Push (.Imm v)) ++ suf) vm
        = some { vm with pc := vm.pc + vs.length, ds := vm.ds ++ vs } := by
  induction vs with
  | nil => intro pre suf vm hpc hlen; simp [Rt.stepsOk]
  | cons v vs' ih =>
    intro pre suf vm hpc hlen
    simp only [List.length_cons] at hlen
    have hget : (pre ++ (v :: vs').map (fun v => Rt.AoInstr.Push (.Imm v)) ++ suf).get? vm.pc
        = some (Rt.AoInstr.Push (.Imm v)) := by
      rw [hpc]
      have h0 := get_append_add pre
        ((v :: vs').map (fun v => Rt.AoInstr.Push (.Imm v)) ++ suf) 0
      simpa using h0
    have hof : ¬ vm.ds.length > 1000000 := by omega
    have hstep : Rt.step (pre ++ (v :: vs').map (fun v => Rt.AoInstr.Push (.Imm v)) ++ suf) vm
        = some (.Ok, { vm with pc := vm.pc + 1, ds := vm.ds ++ [v] }) := by
      simp only [Rt.step, hget]
      simp [Rt.execute, Rt.AoArg.get_value, Rt.AoVM.push, hof]
    rw [List.length_cons]
    have hone : Rt.stepsOk (vs'.length + 1)
        (pre ++ (v :: vs').map (fun v => Rt.AoInstr.Push (.Imm v)) ++ suf) vm
      = Rt.stepsOk vs'.length
          (pre ++ (v :: vs').map (fun v => Rt.AoInstr.Push (.Imm v)) ++ suf)
          { vm with pc := vm.pc + 1, ds := vm.ds ++ [v] } := by
      simp only [Rt.stepsOk, hstep]
    rw [hone]
    have hre : pre ++ (v :: vs').map (fun v => Rt.AoInstr.Push (.Imm v)) ++ suf
        = (pre ++ [Rt.AoInstr.Push (.Imm v)])
            ++ vs'.map (fun v => Rt.AoInstr.Push (.Imm v)) ++ suf := by
      simp
    rw [hre]
    rw [ih (pre ++ [Rt.AoInstr.Push (.Imm v)]) suf
      { vm with pc := vm.pc + 1, ds := vm.ds ++ [v] }
      (by simp [hpc]) (by simp; omega)]
    have hds : vm.ds ++ [v] ++ vs' = vm.ds ++ (v :: vs') := by simp
    have hpc2 : vm.pc + 1 + vs'.length = vm.pc + (vs'.length + 1) := by omega
    rw [hds, hpc2]

/-- C2: for every starting state with `|ds| = B` and `dsb = D`, and every
interrupt id `k ≠ 0`, the well-formed sequence
`push dsb; push v₁ … push vₙ; cnf n; int k` (with `B + n` within the
stack limit) runs to completion and leaves `ds` with exactly its
original `B` elements (indeed the original `ds`) and `dsb = D`,
whatever value the handler returns. -/
theorem frame_unwind (vm : Rt.AoVM) (vs : List AoType) (k : Nat)
    (hpc : vm.pc = 0) (hk : k ≠ 0)
    (hlen : vm.ds.length + vs.length ≤ 1000000) :
    ∃ vm', Rt.runFuel (vs.length + 4) (pushSeq vs k) vm = some (.Exit, vm')
      ∧ vm'.ds = vm.ds ∧ vm'.ds.length = vm.ds.length ∧ vm'.dsb = vm.dsb := by
  set prog := pushSeq vs k with hprog
  set n := vs.length with hn
  have hof : ¬ vm.ds.length > 1000000 := by omega
  have hget0 : prog.get? vm.pc = some (Rt.AoInstr.Push .DSB) := by
    rw [hpc, hprog, pushSeq]; rfl
  have hstep0 : Rt.step prog vm
      = some (.Ok, { vm with pc := vm.pc + 1, ds := vm.ds ++ [.AoPtr vm.dsb] }) := by
    simp only [Rt.step, hget0]
    simp [Rt.execute, Rt.AoArg.get_value, Rt.AoVM.push, hof]
  set vm1 : Rt.AoVM := { vm with pc := vm.pc + 1, ds := vm.ds ++ [.AoPtr vm.dsb] } with hvm1
  have hpush : Rt.stepsOk n prog vm1
      = some { vm1 with pc := vm1.pc + n, ds := vm1.ds ++ vs } := by
    have hshape : prog = [Rt.AoInstr.Push .DSB]
        ++ vs.map (fun v => Rt.AoInstr.Push (.Imm v))
        ++ [Rt.AoInstr.Cnf vs.length, Rt.AoInstr.Int k] := by
      rw [hprog, pushSeq]; rfl
    rw [hshape]
    exact stepsOk_pushes vs _ _ vm1 (by simp [hvm1, hpc]) (by simp [hvm1]; omega)
  set vm2 : Rt.AoVM := { vm1 with pc := vm1.pc + n, ds := vm1.ds ++ vs } with hvm2
  have hget2 : prog.get? vm2.pc = some (Rt.AoInstr.Cnf n) := by
    have hshape : prog = ([Rt.AoInstr.Push .DSB]
        ++ vs.map (fun v => Rt.AoInstr.Push (.Imm v)))
        ++ [Rt.AoInstr.Cnf vs.length, Rt.AoInstr.Int k] := by
      rw [hprog, pushSeq]; simp
    have hpc2 : vm2.pc = ([Rt.AoInstr.Push .DSB]
        ++ vs.map (fun v => Rt.AoInstr.Push (.Imm v))).length + 0 := by
      simp [hvm2, hvm1, hpc, hn]; omega
    rw [hshape, hpc2, get_append_add]
    rfl
  have hlen2 : vm2.ds.length = vm.ds.length + 1 + n := by
    simp [hvm2, hvm1, hn]; omega
  have hstep2 : Rt.step prog vm2
      = some (.Ok, { vm2 with pc := vm2.pc + 1, dsb := vm.ds.length + 1 }) := by
    simp only [Rt.step, hget2, Rt.execute]
    rw [if_neg (by rw [hlen2]; omega)]
    have hsub : vm2.ds.length - n = vm.ds.length + 1 := by rw [hlen2]; omega
    rw [hsub]
  set vm3 : Rt.AoVM := { vm2 with pc := vm2.pc + 1, dsb := vm.ds.length + 1 } with hvm3
  have hget3 : prog.get? vm3.pc = some (Rt.AoInstr.Int k) := by
    have hshape : prog = ([Rt.AoInstr.Push .DSB]
        ++ vs.map (fun v => Rt.AoInstr.Push (.Imm v)) ++ [Rt.AoInstr.Cnf vs.length])
        ++ [Rt.AoInstr.Int k] := by
      rw [hprog, pushSeq]; simp
    have hpc3 : vm3.pc = ([Rt.AoInstr.Push .DSB]
        ++ vs.map (fun v => Rt.AoInstr.Push (.Imm v))
        ++ [Rt.AoInstr.Cnf vs.length]).length + 0 := by
      simp [hvm3, hvm2, hvm1, hpc, hn]; omega
    rw [hshape, hpc3, get_append_add]
    rfl
  have hds2 : vm2.ds = (vm.ds ++ [.AoPtr vm.dsb]) ++ vs := by
    simp [hvm2, hvm1]
  have hslot : vm2.ds.get? (vm.ds.length) = some (.AoPtr vm.dsb) := by
    rw [hds2, List.append_assoc]
    have h0 := get_append_add vm.ds ([AoType.AoPtr vm.dsb] ++ vs) 0
    simpa using h0
  have htake : vm2.ds.take vm.ds.length = vm.ds := by
    rw [hds2, List.append_assoc]
    exact List.take_left vm.ds _
  have hElem : (vm.ds ++ AoType.AoPtr vm.dsb :: vs)[vm.ds.length]?
      = some (AoType.AoPtr vm.dsb) := by
    have h0 := get_append_add vm.ds (AoType.AoPtr vm.dsb :: vs) 0
    rw [List.get?_eq_getElem?] at h0
    simpa using h0
  have hTake : (vm.ds ++ AoType.AoPtr vm.dsb :: vs).take vm.ds.length = vm.ds := by
    simpa using List.take_left vm.ds (AoType.AoPtr vm.dsb :: vs)
  have hstep3 : ∃ ca2, Rt.step prog vm3
      = some (.Ok, { vm3 with pc := vm3.pc + 1, ca := ca2, dsb := vm.dsb, ds := vm.ds }) := by
    simp only [Rt.step, hget3, Rt.execute]
    rw [if_neg hk]
    have hsb : ¬ vm3.dsb > vm3.ds.length := by
      show ¬ vm.ds.length + 1 > vm2.ds.length
      rw [hlen2]; omega
    rw [if_neg hsb]
    have hnz : ¬ (vm3.dsb = 0) := by
      show ¬ vm.ds.length + 1 = 0
      omega
    rcases hint : vm3.interrupt k (vm3.ds.drop vm3.dsb) with _ | cv
    · exact ⟨vm3.ca, by simp [hint, hnz, hElem, hTake]⟩
    · exact ⟨cv, by simp [hint, hnz, hElem, hTake]⟩
  obtain ⟨ca2, hstep3⟩ := hstep3
  set vm4 : Rt.AoVM :=
    { vm3 with pc := vm3.pc + 1, ca := ca2, dsb := vm.dsb, ds := vm.ds } with hvm4
  have hlenp : prog.length = n + 3 := by
    rw [hprog, pushSeq]; simp [hn]
  have hpc4 : vm4.pc = n + 3 := by
    simp [hvm4, hvm3, hvm2, hvm1, hpc]; omega
  have hget4 : prog.get? vm4.pc = none := by
    rw [List.get?_eq_getElem?, List.getElem?_eq_none_iff, hlenp, hpc4]
  have hstep4 : Rt.step prog vm4 = some (.Exit, vm4) := by
    rw [List.get?_eq_getElem?] at hget4
    simp [Rt.step, hget4]
  have hfinal : Rt.runFuel 3 prog vm2 = some (.Exit, vm4) := by
    have e1 : Rt.runFuel 3 prog vm2 = Rt.runFuel 2 prog vm3 := by
      rw [show (3 : Nat) = 2 + 1 from rfl]
      simp only [Rt.runFuel, hstep2]
    have e2 : Rt.runFuel 2 prog vm3 = Rt.runFuel 1 prog vm4 := by
      rw [show (2 : Nat) = 1 + 1 from rfl]
      simp only [Rt.runFuel, hstep3]
    have e3 : Rt.runFuel 1 prog vm4 = some (.Exit, vm4) := by
      rw [show (1 : Nat) = 0 + 1 from rfl]
      simp only [Rt.runFuel, hstep4]
    rw [e1, e2, e3]
  have hrun : Rt.runFuel (n + 4) prog vm = some (.Exit, vm4) := by
    have h1 : n + 4 = (n + 3) + 1 := by omega
    rw [h1]
    have hA : Rt.runFuel ((n + 3) + 1) prog vm = Rt.runFuel (n + 3) prog vm1 := by
      simp only [Rt.runFuel, hstep0]
    rw [hA, runFuel_stepsOk prog n 3 vm1 _ hpush, hfinal]
  exact ⟨vm4, hrun, by simp [hvm4], by simp [hvm4], by simp [hvm4]⟩

/-- Witness for `frame_unwind`: fresh VM, two `Int` arguments, id 5. -/
theorem frame_unwind_witness :
    ∃ vm', Rt.runFuel (2 + 4) (pushSeq [.AoInt 1, .AoInt 2] 5) vm0
        = some (.Exit, vm')
      ∧ vm'.ds = vm0.ds ∧ vm'.ds.length = vm0.ds.length
      ∧ vm'.dsb = vm0.dsb :=
  frame_unwind vm0 [.AoInt 1, .AoInt 2] 5 rfl (by decide) (by decide)

namespace Asm

theorem readByte_at (pre : List Nat) (b : Nat) (rest : List Nat) :
    readByte (pre ++ b :: rest) pre.length = .ok b := by
  unfold readByte
  have h0 := get_append_add pre (b :: rest) 0
  simp only [Nat.add_zero] at h0
  rw [h0]
  rfl

theorem le4_decode (n : Nat) (h : n < w32) :
    n % 256 + 256 * (n / 256 % 256) + 65536 * (n / 65536 % 256)
      + 16777216 * (n / 16777216 % 256) = n := by
  unfold w32 at h
  omega

theorem read4_le4 (pre suf : List Nat) (n : Nat) (hn : n < w32) :
    read4 (pre ++ le4 n ++ suf) pre.length = .ok n := by
  have e : pre ++ le4 n ++ suf
      = pre ++ (n % 256 :: n / 256 % 256 :: n / 65536 % 256
          :: n / 16777216 % 256 :: suf) := by
    simp [le4]
  rw [e]
  have g0 : (pre ++ (n % 256 :: n / 256 % 256 :: n / 65536 % 256
      :: n / 16777216 % 256 :: suf)).get? pre.length = some (n % 256) := by
    have h := get_append_add pre (n % 256 :: n / 256 % 256 :: n / 65536 % 256
      :: n / 16777216 % 256 :: suf) 0
    rw [Nat.add_zero] at h
    rw [h]; rfl
  have g1 : (pre ++ (n % 256 :: n / 256 % 256 :: n / 65536 % 256
      :: n / 16777216 % 256 :: suf)).get? (pre.length + 1)
      = some (n / 256 % 256) := by
    rw [get_append_add pre (n % 256 :: n / 256 % 256 :: n / 65536 % 256
      :: n / 16777216 % 256 :: suf) 1]; rfl
  have g2 : (pre ++ (n % 256 :: n / 256 % 256 :: n / 65536 % 256
      :: n / 16777216 % 256 :: suf)).get? (pre.length + 2)
      = some (n / 65536 % 256) := by
    rw [get_append_add pre (n % 256 :: n / 256 % 256 :: n / 65536 % 256
      :: n / 16777216 % 256 :: suf) 2]; rfl
  have g3 : (pre ++ (n % 256 :: n / 256 % 256 :: n / 65536 % 256
      :: n / 16777216 % 256 :: suf)).get? (pre.length + 3)
      = some (n / 16777216 % 256) := by
    rw [get_append_add pre (n % 256 :: n / 256 % 256 :: n / 65536 % 256
      :: n / 16777216 % 256 :: suf) 3]; rfl
  unfold read4
  rw [g0, g1, g2, g3]
  exact congrArg PRes.ok (le4_decode n hn)

theorem readSlice_at (pre mid suf : List Nat) :
    readSlice (pre ++ mid ++ suf) pre.length mid.length = .ok mid := by
  unfold readSlice
  rw [if_pos (by simp)]
  have hd : (pre ++ mid ++ suf).drop pre.length = mid ++ suf := by
    rw [List.append_assoc]
    exact List.drop_left pre (mid ++ suf)
  rw [hd, List.take_left]

theorem decodeType_ser (v : AoType) (hw : wfType v) (pre suf : List Nat) :
    decodeType (pre ++ serialize_type v ++ suf) pre.length
      = .ok (v, pre.length + (serialize_type v).length) := by
  cases v with
  | AoBool b =>
    have e : pre ++ serialize_type (.AoBool b) ++ suf
        = pre ++ 0x01 :: (if b then 0x01 else 0x00) :: suf := by
      simp [serialize_type]
    rw [e]
    unfold decodeType
    rw [readByte_at]
    unfold decodeTypeAux
    have hb : readByte (pre ++ 0x01 :: (if b then 0x01 else 0x00) :: suf)
        (pre.length + 1) = .ok (if b then 0x01 else 0x00) := by
      have h0 := readByte_at (pre ++ [0x01]) (if b then 0x01 else 0x00) suf
      have e2 : (pre ++ [0x01]) ++ (if b then 0x01 else 0x00) :: suf
          = pre ++ 0x01 :: (if b then 0x01 else 0x00) :: suf := by simp
      have e3 : (pre ++ [0x01]).length = pre.length + 1 := by simp
      rw [e2, e3] at h0
      exact h0
    norm_num [hb]
    cases b <;> simp [serialize_type]
  | AoInt n =>
    have e : pre ++ serialize_type (.AoInt n) ++ suf
        = pre ++ 0x02 :: (le4 n ++ suf) := by
      simp [serialize_type]
    rw [e]
    unfold decodeType
    rw [readByte_at]
    unfold decodeTypeAux
    have hr : read4 (pre ++ 0x02 :: (le4 n ++ suf)) (pre.length + 1) = .ok n := by
      have h0 := read4_le4 (pre ++ [0x02]) suf n hw
      have e2 : (pre ++ [0x02]) ++ le4 n ++ suf = pre ++ 0x02 :: (le4 n ++ suf) := by
        simp
      have e3 : (pre ++ [0x02]).length = pre.length + 1 := by simp
      rw [e2, e3] at h0
      exact h0
    norm_num [hr]
    simp [serialize_type, le4]
  | AoFloat n =>
    have e : pre ++ serialize_type (.AoFloat n) ++ suf
        = pre ++ 0x03 :: (le4 n ++ suf) := by
      simp [serialize_type]
    rw [e]
    unfold decodeType
    rw [readByte_at]
    unfold decodeTypeAux
    have hr : read4 (pre ++ 0x03 :: (le4 n ++ suf)) (pre.length + 1) = .ok n := by
      have h0 := read4_le4 (pre ++ [0x03]) suf n hw
      have e2 : (pre ++ [0x03]) ++ le4 n ++ suf = pre ++ 0x03 :: (le4 n ++ suf) := by
        simp
      have e3 : (pre ++ [0x03]).length = pre.length + 1 := by simp
      rw [e2, e3] at h0
      exact h0
    norm_num [hr]
    simp [serialize_type, le4]
  | AoPtr n =>
    have e : pre ++ serialize_type (.AoPtr n) ++ suf
        = pre ++ 0x04 :: (le4 n ++ suf) := by
      simp [serialize_type]
    rw [e]
    unfold decodeType
    rw [readByte_at]
    unfold decodeTypeAux
    have hr : read4 (pre ++ 0x04 :: (le4 n ++ suf)) (pre.length + 1) = .ok n := by
      have h0 := read4_le4 (pre ++ [0x04]) suf n hw
      have e2 : (pre ++ [0x04]) ++ le4 n ++ suf = pre ++ 0x04 :: (le4 n ++ suf) := by
        simp
      have e3 : (pre ++ [0x04]).length = pre.length + 1 := by simp
      rw [e2, e3] at h0
      exact h0
    norm_num [hr]
    simp [serialize_type, le4]
  | AoString s =>
    obtain ⟨hbytes, hutf, hslen⟩ := hw
    have e : pre ++ serialize_type (.AoString s) ++ suf
        = pre ++ 0x05 :: (le4 s.length ++ (s ++ suf)) := by
      simp [serialize_type]
    rw [e]
    unfold decodeType
    rw [readByte_at]
    unfold decodeTypeAux
    have hr : read4 (pre ++ 0x05 :: (le4 s.length ++ (s ++ suf)))
        (pre.length + 1) = .ok s.length := by
      have h0 := read4_le4 (pre ++ [0x05]) (s ++ suf) s.length hslen
      have e2 : (pre ++ [0x05]) ++ le4 s.length ++ (s ++ suf)
          = pre ++ 0x05 :: (le4 s.length ++ (s ++ suf)) := by simp
      have e3 : (pre ++ [0x05]).length = pre.length + 1 := by simp
      rw [e2, e3] at h0
      exact h0
    have hsl : readSlice (pre ++ 0x05 :: (le4 s.length ++ (s ++ suf)))
        (pre.length + 1 + 4) s.length = .ok s := by
      have h0 := readSlice_at (pre ++ 0x05 :: le4 s.length) s suf
      have e2 : (pre ++ 0x05 :: le4 s.length) ++ s ++ suf
          = pre ++ 0x05 :: (le4 s.length ++ (s ++ suf)) := by simp
      have e3 : (pre ++ 0x05 :: le4 s.length).length = pre.length + 1 + 4 := by
        simp [le4]
      rw [e2, e3] at h0
      exact h0
    norm_num [hr, hsl, hutf]
    simp [serialize_type, le4]
    omega

end Asm

namespace Asm

theorem readByte_at_cons (pre suf : List Nat) (t b : Nat) :
    readByte (pre ++ t :: b :: suf) (pre.length + 1) = .ok b := by
  have h0 := readByte_at (pre ++ [t]) b suf
  have e2 : (pre ++ [t]) ++ b :: suf = pre ++ t :: b :: suf := by simp
  have e3 : (pre ++ [t]).length = pre.length + 1 := by simp
  rw [e2, e3] at h0
  exact h0

theorem read4_at_cons (pre suf : List Nat) (t n : Nat) (hn : n < w32) :
    read4 (pre ++ t :: (le4 n ++ suf)) (pre.length + 1) = .ok n := by
  have h0 := read4_le4 (pre ++ [t]) suf n hn
  have e2 : (pre ++ [t]) ++ le4 n ++ suf = pre ++ t :: (le4 n ++ suf) := by simp
  have e3 : (pre ++ [t]).length = pre.length + 1 := by simp
  rw [e2, e3] at h0
  exact h0

theorem decodeArg_ser (a : AoArg) (hw : wfArg a) (pre suf : List Nat) :
    decodeArg (pre ++ serialize_arg a ++ suf) pre.length
      = .ok (a, pre.length + (serialize_arg a).length) := by
  cases a
  case Imm v =>
    have e : pre ++ serialize_arg (.Imm v) ++ suf
        = pre ++ 0x08 :: (serialize_type v ++ suf) := by simp [serialize_arg]
    rw [e]
    simp only [decodeArg, readByte_at]
    have hty : decodeType (pre ++ 0x08 :: (serialize_type v ++ suf))
        (pre.length + 1) = .ok (v, pre.length + 1 + (serialize_type v).length) := by
      have h0 := decodeType_ser v hw (pre ++ [0x08]) suf
      have e2 : (pre ++ [0x08]) ++ serialize_type v ++ suf
          = pre ++ 0x08 :: (serialize_type v ++ suf) := by simp
      have e3 : (pre ++ [0x08]).length = pre.length + 1 := by simp
      rw [e2, e3] at h0
      exact h0
    norm_num [decodeArgAux, hty, serialize_arg, Nat.add_assoc]
    omega
  all_goals
    simp only [serialize_arg, List.cons_append, List.append_assoc,
      List.singleton_append]
    simp only [decodeArg, readByte_at]
    norm_num [decodeArgAux]

theorem decodeArg_at_cons (pre suf : List Nat) (t : Nat) (a : AoArg)
    (hw : wfArg a) :
    decodeArg (pre ++ t :: (serialize_arg a ++ suf)) (pre.length + 1)
      = .ok (a, pre.length + 1 + (serialize_arg a).length) := by
  have h0 := decodeArg_ser a hw (pre ++ [t]) suf
  have e2 : (pre ++ [t]) ++ serialize_arg a ++ suf
      = pre ++ t :: (serialize_arg a ++ suf) := by simp
  have e3 : (pre ++ [t]).length = pre.length + 1 := by simp
  rw [e2, e3] at h0
  exact h0

end Asm

namespace Asm

theorem decodeOpcode_ser (op : AoOpCode) (hw : wfOp op) (pre suf : List Nat) :
    decodeOpcode (pre ++ serialize_opcode op ++ suf) pre.length
      = .ok (op, pre.length + (serialize_opcode op).length) := by
  cases op
  case INT id =>
    simp only [serialize_opcode, List.cons_append, List.append_assoc,
      List.singleton_append]
    simp only [decodeOpcode, readByte_at]
    norm_num [decodeOpcodeAux, readByte_at_cons pre suf 0x21 (id % 256)]
    exact hw
  case POP save =>
    cases save <;>
      simp only [serialize_opcode, List.cons_append, List.append_assoc,
        List.singleton_append] <;>
      simp only [decodeOpcode, readByte_at] <;>
      norm_num [decodeOpcodeAux, readByte_at_cons]
  case MOV dst src =>
    simp only [serialize_opcode, List.cons_append, List.append_assoc,
      List.singleton_append]
    simp only [decodeOpcode, readByte_at]
    have h1 := decodeArg_at_cons pre (serialize_arg src ++ suf) 0x20 dst hw.1
    have h2 := decodeArg_ser src hw.2 (pre ++ 0x20 :: serialize_arg dst) suf
    have e2 : (pre ++ 0x20 :: serialize_arg dst) ++ serialize_arg src ++ suf
        = pre ++ 0x20 :: (serialize_arg dst ++ (serialize_arg src ++ suf)) := by
      simp
    have e3 : (pre ++ 0x20 :: serialize_arg dst).length
        = pre.length + 1 + (serialize_arg dst).length := by
      simp; omega
    rw [e2, e3] at h2
    norm_num [decodeOpcodeAux, h1, h2]
    omega
  all_goals first
    | -- opcodes with a single `Arg` operand
      (rename_i a
       simp only [serialize_opcode, List.cons_append, List.append_assoc,
         List.singleton_append]
       simp only [decodeOpcode, readByte_at]
       norm_num [decodeOpcodeAux, decodeArg1,
         decodeArg_at_cons pre suf _ a hw]
       omega)
    | -- opcodes with a `u32` operand
      (rename_i n
       simp only [serialize_opcode, List.cons_append, List.append_assoc,
         List.singleton_append]
       simp only [decodeOpcode, readByte_at]
       norm_num [decodeOpcodeAux, decodeU32,
         read4_at_cons pre suf _ n hw]
       norm_num [le4])
    | -- opcodes with no operand
      (simp only [serialize_opcode, List.cons_append, List.append_assoc,
         List.singleton_append]
       simp only [decodeOpcode, readByte_at]
       norm_num [decodeOpcodeAux])

end Asm

namespace Asm

theorem serialize_opcode_ne_nil (op : AoOpCode) : serialize_opcode op ≠ [] := by
  cases op <;> simp [serialize_opcode]

theorem serialize_cons (op : AoOpCode) (ps : List AoOpCode) :
    serialize (op :: ps) = serialize_opcode op ++ serialize ps := by
  simp [serialize]

theorem serialize_length_ge (ps : List AoOpCode) :
    ps.length ≤ (serialize ps).length := by
  induction ps with
  | nil => simp [serialize]
  | cons op ps' ih =>
    rw [serialize_cons]
    have h1 : 1 ≤ (serialize_opcode op).length := by
      cases hop : serialize_opcode op with
      | nil => exact absurd hop (serialize_opcode_ne_nil op)
      | cons a t => simp
    simp only [List.length_append, List.length_cons]
    omega

theorem deserializeLoop_ser (ps : List AoOpCode) :
    ∀ (pre : List Nat) (fuel : Nat), wfProg ps → fuel ≥ ps.length + 1 →
      deserializeLoop fuel (pre ++ serialize ps) pre.length = .ok ps := by
  induction ps with
  | nil =>
    intro pre fuel hw hf
    obtain ⟨f, rfl⟩ : ∃ f, fuel = f + 1 := ⟨fuel - 1, by omega⟩
    rw [deserializeLoop]
    simp [serialize]
  | cons op ps' ih =>
    intro pre fuel hw hf
    obtain ⟨f, rfl⟩ : ∃ f, fuel = f + 1 := ⟨fuel - 1, by omega⟩
    rw [serialize_cons, deserializeLoop]
    have hcond : pre.length < (pre ++ (serialize_opcode op ++ serialize ps')).length := by
      have h1 : 1 ≤ (serialize_opcode op).length := by
        cases hop : serialize_opcode op with
        | nil => exact absurd hop (serialize_opcode_ne_nil op)
        | cons a t => simp
      simp only [List.length_append]
      omega
    have hdec : decodeOpcode (pre ++ (serialize_opcode op ++ serialize ps'))
        pre.length = .ok (op, pre.length + (serialize_opcode op).length) := by
      have h0 := decodeOpcode_ser op (hw op (List.mem_cons_self op ps'))
        pre (serialize ps')
      rw [List.append_assoc] at h0
      exact h0
    have hrec : deserializeLoop f (pre ++ (serialize_opcode op ++ serialize ps'))
        (pre.length + (serialize_opcode op).length) = .ok ps' := by
      have h0 := ih (pre ++ serialize_opcode op) f
        (fun o ho => hw o (List.mem_cons_of_mem op ho))
        (by simp only [List.length_cons] at hf; omega)
      rw [List.append_assoc] at h0
      simp only [List.length_append] at h0
      exact h0
    simp only [if_pos hcond, hdec, hrec]

theorem deserialize_serialize (ps : List AoOpCode) (hw : wfProg ps) :
    deserialize (serialize ps) = .ok ps := by
  unfold deserialize
  have h0 := deserializeLoop_ser ps [] ((serialize ps).length + 1) hw
    (by have := serialize_length_ge ps; omega)
  simpa using h0

theorem rustEqType_refl (v : AoType) (h : noNaNType v) : rustEqType v v = true := by
  cases v <;> simp_all [rustEqType, noNaNType, fEq]

theorem rustEqArg_refl (a : AoArg) (h : noNaNArg a) : rustEqArg a a = true := by
  cases a <;> simp_all [rustEqArg, noNaNArg] <;> exact rustEqType_refl _ h

set_option maxHeartbeats 1000000 in
theorem rustEqOp_refl (op : AoOpCode) (h : noNaNOp op) : rustEqOp op op = true := by
  cases op <;>
    first
      | exact rfl
      | exact beq_self_eq_true _
      | exact rustEqArg_refl _ h
      | (obtain ⟨hd, hs⟩ := h
         show (rustEqArg _ _ && rustEqArg _ _) = true
         rw [rustEqArg_refl _ hd, rustEqArg_refl _ hs]
         exact rfl)

theorem rustEqProg_refl (ps : List AoOpCode) (h : noNaNProg ps) :
    rustEqProg ps ps = true := by
  induction ps with
  | nil => rfl
  | cons op ps' ih =>
    have h1 : noNaNOp op := h op (List.mem_cons_self op ps')
    have h2 : noNaNProg ps' := fun o ho => h o (List.mem_cons_of_mem op ho)
    simp [rustEqProg, rustEqOp_refl op h1, ih h2]

end Asm

/-- C1 (counterexample): the round-trip claim fails under Rust `==` at
the program `[push Float(NaN)]`: deserialisation reproduces the program
bit-for-bit, but `Some(p') == Some(p)` is false because `NaN != NaN`
under `f32`'s `PartialEq`. -/
theorem roundtrip_nan_refuted :
    Asm.deserialize (Asm.serialize Asm.nanProg) = .ok Asm.nanProg
  ∧ Asm.rustEqProg Asm.nanProg Asm.nanProg = false := by
  exact ⟨by decide, by decide⟩

/-- C1 (amended): for every Rust-representable program whose `Float`
immediates are not NaN (and whose strings are shorter than 2^32 bytes —
part of `wfProg`), deserialising the serialised bytes succeeds and
yields a program equal to the original, both structurally and under
Rust `==`. -/
theorem roundtrip (ps : List Asm.AoOpCode) (hw : Asm.wfProg ps)
    (hn : Asm.noNaNProg ps) :
    Asm.deserialize (Asm.serialize ps) = .ok ps
  ∧ Asm.rustEqProg ps ps = true :=
  ⟨Asm.deserialize_serialize ps hw, Asm.rustEqProg_refl ps hn⟩

/-- Witness for `roundtrip` at a nine-instruction program covering all
operand shapes. -/
theorem roundtrip_witness :
    Asm.deserialize (Asm.serialize roundProg) = .ok roundProg
  ∧ Asm.rustEqProg roundProg roundProg = true :=
  roundtrip roundProg (by decide) (by decide)
